import Mathlib

/-!
Shallow embedding of the funding-dashboard core (aggregator, paper-trading
engine, AI trader cycle, analytics, HTTP funding endpoint) and proofs of the
frozen claims about it.

Conventions used throughout the embedding:
* JavaScript numbers are modelled as rationals (`ℚ`); wall-clock instants as
  millisecond epochs (`ℤ`).  `NaN` and `null`/`undefined` are modelled with
  `Option` where the source can produce them.
* JavaScript truthiness of a number (`x &&`) is `x ≠ 0` on a present value and
  false on `null`/`undefined`.
* Database writes are modelled by returning the rows/updates a cycle would
  insert; the in-memory cash variable is threaded explicitly.
-/

/-- One funding-rate observation (shared `FundingRate` type; fields the
claims need). `rate8h` is the 8-hour-normalized rate, `markPrice` and
`openInterest` are optional and populated by the primary venue. -/
structure FundingRate where
  asset : String
  rate8h : ℚ
  markPrice : Option ℚ := none
  openInterest : Option ℚ := none
deriving Repr, DecidableEq

/-- A named CEX rate entry as pushed into `cexRates` by `aggregateRates`. -/
structure CexEntry where
  name : String
  rate : ℚ
deriving Repr, DecidableEq

/-- The shared `FundingSpread` record: primary (HL) rate plus up to three CEX
rates, the spread versus the most extreme CEX, and that CEX's name. -/
structure FundingSpread where
  asset : String
  hl : Option FundingRate
  binance : Option FundingRate := none
  bybit : Option FundingRate := none
  okx : Option FundingRate := none
  maxSpread : ℚ
  bestCex : String
deriving Repr, DecidableEq

/-- Lookup in a `Map` built by iterating `m.set(r.asset, r)` over a list:
the last entry with the asset wins. -/
def mapGet (rs : List FundingRate) (a : String) : Option FundingRate :=
  rs.foldl (fun acc r => if r.asset = a then some r else acc) none

/-- The `cexRates` list built inside `aggregateRates`: present CEX rates are
pushed in the fixed order binance, bybit, okx. -/
def cexRatesOf (bin byb okx : Option FundingRate) : List CexEntry :=
  (match bin with | some b => [⟨"binance", b.rate8h⟩] | none => []) ++
  (match byb with | some b => [⟨"bybit", b.rate8h⟩] | none => []) ++
  (match okx with | some b => [⟨"okx", b.rate8h⟩] | none => [])

/-- JavaScript `Array.reduce((a, b) => Math.abs(b.rate) > Math.abs(a.rate) ? b : a)`:
the first element seeds the accumulator, strictly larger |rate| replaces it. -/
def reduceBest (l : List CexEntry) : Option CexEntry :=
  match l with
  | [] => none
  | a :: rest => some (rest.foldl (fun acc b => if |b.rate| > |acc.rate| then b else acc) a)

/-- Body of the `hlRates.map` in `aggregateRates`: builds one `FundingSpread`
from the HL rate and the CEX lookups. -/
def buildSpread (hl : FundingRate) (bin byb okx : Option FundingRate) : FundingSpread :=
  let cexRates := cexRatesOf bin byb okx
  let best := reduceBest cexRates
  let bestCex := match best with | some b => b.name | none => "none"
  let bestCexRate : ℚ := match best with | some b => b.rate | none => 0
  { asset := hl.asset
    hl := some hl
    binance := bin
    bybit := byb
    okx := okx
    maxSpread := hl.rate8h - bestCexRate
    bestCex := bestCex }

/-- The spread list of `aggregateRates`: one spread per HL asset, then sorted
by `|maxSpread|` descending. -/
def aggregateSpreads (hlRates binR bybR okxR : List FundingRate) : List FundingSpread :=
  let spreads := hlRates.map fun hl =>
    buildSpread hl (mapGet binR hl.asset) (mapGet bybR hl.asset) (mapGet okxR hl.asset)
  spreads.mergeSort (fun a b => |b.maxSpread| ≤ |a.maxSpread|)

/-- The fold inside `reduceBest` returns an element of `a :: cs` whose
absolute rate dominates `a` and every element of `cs`. -/
theorem foldl_best_spec (cs : List CexEntry) (a : CexEntry) :
    (cs.foldl (fun acc b => if |b.rate| > |acc.rate| then b else acc) a) ∈ a :: cs ∧
    |a.rate| ≤ |(cs.foldl (fun acc b => if |b.rate| > |acc.rate| then b else acc) a).rate| ∧
    ∀ c ∈ cs,
      |c.rate| ≤ |(cs.foldl (fun acc b => if |b.rate| > |acc.rate| then b else acc) a).rate| := by
  induction cs generalizing a with
  | nil => exact ⟨List.mem_singleton_self a, le_refl _, by simp⟩
  | cons c cs ih =>
    obtain ⟨hmem, hdom, hall⟩ := ih (if |c.rate| > |a.rate| then c else a)
    have hstep_a : |a.rate| ≤ |(if |c.rate| > |a.rate| then c else a).rate| := by
      by_cases h : |c.rate| > |a.rate| <;> simp [h] <;> linarith
    have hstep_c : |c.rate| ≤ |(if |c.rate| > |a.rate| then c else a).rate| := by
      by_cases h : |c.rate| > |a.rate| <;> simp [h] <;> linarith
    refine ⟨?_, le_trans hstep_a hdom, ?_⟩
    · simp only [List.foldl_cons]
      rcases List.mem_cons.mp hmem with hmem | hmem
      · rw [hmem]
        by_cases h : |c.rate| > |a.rate| <;> simp [h]
      · simp only [List.mem_cons]
        right; right
        exact hmem
    · intro d hd
      simp only [List.foldl_cons]
      rcases List.mem_cons.mp hd with hd | hd
      · subst hd
        exact le_trans hstep_c hdom
      · exact hall d hd

/-- The result of `reduceBest` is a member of its input with maximal |rate|. -/
theorem reduceBest_spec (l : List CexEntry) (b : CexEntry) (h : reduceBest l = some b) :
    b ∈ l ∧ ∀ c ∈ l, |c.rate| ≤ |b.rate| := by
  match l with
  | [] => simp [reduceBest] at h
  | a :: rest =>
    simp only [reduceBest, Option.some.injEq] at h
    subst h
    obtain ⟨hmem, hdom, hall⟩ := foldl_best_spec rest a
    refine ⟨hmem, ?_⟩
    intro c hc
    rcases List.mem_cons.mp hc with hc | hc
    · exact hc ▸ hdom
    · exact hall c hc

/-- Per-spread property of `buildSpread`: with no CEX rates the spread keeps
`bestCex = "none"` and `maxSpread = hl.rate8h` (the code subtracts a zero
`bestCexRate`); with CEX rates present, `bestCex`/`maxSpread` come from a CEX
entry of maximal absolute rate. -/
theorem buildSpread_bestCex (hl : FundingRate) (bin byb okx : Option FundingRate) :
    (cexRatesOf bin byb okx = [] →
        (buildSpread hl bin byb okx).bestCex = "none" ∧
        (buildSpread hl bin byb okx).maxSpread = hl.rate8h) ∧
    (cexRatesOf bin byb okx ≠ [] →
        ∃ b ∈ cexRatesOf bin byb okx,
          (buildSpread hl bin byb okx).bestCex = b.name ∧
          (buildSpread hl bin byb okx).maxSpread = hl.rate8h - b.rate ∧
          ∀ c ∈ cexRatesOf bin byb okx, |c.rate| ≤ |b.rate|) := by
  constructor
  · intro h
    simp [buildSpread, h, reduceBest]
  · intro h
    rcases hr : reduceBest (cexRatesOf bin byb okx) with _ | b
    · cases hc : cexRatesOf bin byb okx with
      | nil => exact absurd hc h
      | cons a rest =>
        rw [hc] at hr
        simp [reduceBest] at hr
    · obtain ⟨hbmem, hbmax⟩ := reduceBest_spec _ _ hr
      exact ⟨b, hbmem, by simp [buildSpread, hr], by simp [buildSpread, hr], hbmax⟩

/-- Spreads produced by `aggregateSpreads` are exactly the `buildSpread`
results of the HL rates (the final sort only permutes them). -/
theorem mem_aggregateSpreads (hlRates binR bybR okxR : List FundingRate)
    (s : FundingSpread) (hs : s ∈ aggregateSpreads hlRates binR bybR okxR) :
    ∃ h0 ∈ hlRates,
      s = buildSpread h0 (mapGet binR h0.asset) (mapGet bybR h0.asset) (mapGet okxR h0.asset) := by
  simp only [aggregateSpreads, List.mem_mergeSort, List.mem_map] at hs
  obtain ⟨h0, hh0, hEq⟩ := hs
  exact ⟨h0, hh0, hEq.symm⟩

/-- Claim C1 counterexample: an aggregation over one HL asset with rate8h =
0.01 and no CEX data yields a spread with `bestCex = "none"` but
`maxSpread = 0.01 ≠ 0`, contradicting the claim's "if no CEX rate is present
then s.maxSpread = 0". -/
theorem claim_C1_counterexample :
    ∃ s ∈ aggregateSpreads [{ asset := "BTC", rate8h := 1/100 }] [] [] [],
      s.bestCex = "none" ∧ s.maxSpread ≠ 0 := by
  refine ⟨buildSpread { asset := "BTC", rate8h := 1/100 } none none none, ?_, ?_, ?_⟩
  · simp [aggregateSpreads, mapGet]
  · rfl
  · show (1:ℚ)/100 - 0 ≠ 0
    norm_num

/-- Claim C1 (amended): for every spread in an aggregation result, if at
least one CEX rate is present then `bestCex` names a CEX venue whose rate8h
has the largest absolute value among those present and `maxSpread` is the
primary rate8h minus that venue's signed rate8h; if no CEX rate is present
then `bestCex = "none"` and `maxSpread` equals the primary rate8h (the code
treats the missing best CEX rate as 0; it is not forced to 0). -/
theorem claim_C1_amended (hlRates binR bybR okxR : List FundingRate)
    (s : FundingSpread) (hs : s ∈ aggregateSpreads hlRates binR bybR okxR)
    (hl : FundingRate) (hhl : s.hl = some hl) :
    (cexRatesOf s.binance s.bybit s.okx = [] →
        s.bestCex = "none" ∧ s.maxSpread = hl.rate8h) ∧
    (cexRatesOf s.binance s.bybit s.okx ≠ [] →
        ∃ b ∈ cexRatesOf s.binance s.bybit s.okx,
          s.bestCex = b.name ∧ s.maxSpread = hl.rate8h - b.rate ∧
          ∀ c ∈ cexRatesOf s.binance s.bybit s.okx, |c.rate| ≤ |b.rate|) := by
  obtain ⟨h0, _, rfl⟩ := mem_aggregateSpreads hlRates binR bybR okxR s hs
  have hfields : (buildSpread h0 (mapGet binR h0.asset) (mapGet bybR h0.asset)
      (mapGet okxR h0.asset)).binance = mapGet binR h0.asset ∧
      (buildSpread h0 (mapGet binR h0.asset) (mapGet bybR h0.asset)
        (mapGet okxR h0.asset)).bybit = mapGet bybR h0.asset ∧
      (buildSpread h0 (mapGet binR h0.asset) (mapGet bybR h0.asset)
        (mapGet okxR h0.asset)).okx = mapGet okxR h0.asset := ⟨rfl, rfl, rfl⟩
  have hl0 : h0 = hl := by
    have : some h0 = some hl := hhl
    exact Option.some.injEq h0 hl ▸ this
  rw [hfields.1, hfields.2.1, hfields.2.2, ← hl0]
  exact buildSpread_bestCex h0 (mapGet binR h0.asset) (mapGet bybR h0.asset)
    (mapGet okxR h0.asset)

/-- Concrete HL rate used in the C1 witness (the spec's S3 scenario). -/
def hlHYPE : FundingRate := { asset := "HYPE", rate8h := 6/1000 }

/-- Concrete Bybit rate used in the C1 witness. -/
def bybHYPE : FundingRate := { asset := "HYPE", rate8h := 1/10000 }

/-- Concrete OKX rate used in the C1 witness. -/
def okxHYPE : FundingRate := { asset := "HYPE", rate8h := -(5/1000) }

/-- Concrete spread produced for the C1 witness. -/
def spreadHYPE : FundingSpread := buildSpread hlHYPE none (some bybHYPE) (some okxHYPE)

/-- Witness for claim C1: on the spec's S3 scenario the amended theorem
applies and the best CEX is OKX with maxSpread 0.011. -/
theorem claim_C1_witness :
    ∃ b ∈ cexRatesOf spreadHYPE.binance spreadHYPE.bybit spreadHYPE.okx,
      spreadHYPE.bestCex = b.name ∧ spreadHYPE.maxSpread = hlHYPE.rate8h - b.rate ∧
      ∀ c ∈ cexRatesOf spreadHYPE.binance spreadHYPE.bybit spreadHYPE.okx,
        |c.rate| ≤ |b.rate| :=
  (claim_C1_amended [hlHYPE] [] [bybHYPE] [okxHYPE] spreadHYPE
    (by simp [aggregateSpreads, spreadHYPE, mapGet, hlHYPE, bybHYPE, okxHYPE]) hlHYPE rfl).2
    (by simp [spreadHYPE, buildSpread, cexRatesOf])

/-- Trading fee constant (0.05%). -/
def TRADING_FEE : ℚ := 5/10000

/-- Funding period in milliseconds (1 hour; HL pays hourly). -/
def FUNDING_PERIOD_MS : ℤ := 60 * 60 * 1000

/-- One open paper position (`paper_positions` row fields the engine reads).
`last_funding_collected` is modelled as a millisecond epoch (the source
stores an ISO string and parses it back with `getTime`). -/
structure PaperPosition where
  id : String
  asset : String
  side : String
  size_usd : ℚ
  entry_price : Option ℚ := none
  total_funding_collected : ℚ := 0
  last_funding_collected : ℤ
deriving Repr, DecidableEq

/-- Result of running the Phase-1 funding body on one position: the
(possibly updated) position, the amount credited to the in-cycle cash
balance, and the amounts of the `funding` transactions inserted. -/
structure FundingStep where
  pos : PaperPosition
  cashDelta : ℚ
  fundingTxns : List ℚ
deriving Repr, DecidableEq

/-- `Map.get` over the spreads map keyed by asset (last write wins). -/
def spreadFor (spreads : List FundingSpread) (a : String) : Option FundingSpread :=
  spreads.foldl (fun acc s => if s.asset = a then some s else acc) none

/-- Phase 1 of `processPortfolio` for a single open position: funding
accrual.  `Math.floor` of the elapsed-period division is `Int.fdiv`.  A
position is skipped (no update, no transaction) when the spread or its HL
rate is missing, when no whole hour elapsed, or when `|fundingEarned| <
0.001`. -/
def collectFunding (now : ℤ) (spread : Option FundingSpread) (pos : PaperPosition) :
    FundingStep :=
  match spread with
  | none => ⟨pos, 0, []⟩
  | some s =>
    match s.hl with
    | none => ⟨pos, 0, []⟩
    | some hl =>
      let lastCollected := pos.last_funding_collected
      let elapsed := now - lastCollected
      let periodsElapsed := elapsed.fdiv FUNDING_PERIOD_MS
      if periodsElapsed ≤ 0 then ⟨pos, 0, []⟩
      else
        let hourlyRate := hl.rate8h / 8
        let direction : ℚ := if pos.side = "short_perp" then 1 else -1
        let fundingEarned := pos.size_usd * hourlyRate * (periodsElapsed : ℚ) * direction
        if |fundingEarned| < 1/1000 then ⟨pos, 0, []⟩
        else
          ⟨{ pos with
              total_funding_collected := pos.total_funding_collected + fundingEarned
              last_funding_collected := lastCollected + periodsElapsed * FUNDING_PERIOD_MS }
            , fundingEarned, [fundingEarned]⟩

/-- Claim C2 counterexample: a short position on an asset whose primary rate
is 0 with Δh = 2 elapsed hours earns 0, which falls under the 0.001 dust
threshold: the code records no funding transaction and does not advance
`lastFundingAt`, while the claim demands one transaction and an advance by
exactly Δh hours. -/
theorem claim_C2_counterexample :
    ((9000000 : ℤ) - 0).fdiv FUNDING_PERIOD_MS = 2 ∧
    ¬ (let step := collectFunding 9000000
          (some { asset := "BTC", hl := some { asset := "BTC", rate8h := 0 },
                  maxSpread := 0, bestCex := "none" })
          { id := "p1", asset := "BTC", side := "short_perp", size_usd := 10000,
            last_funding_collected := 0 }
       step.fundingTxns.length = 1 ∧
       step.pos.last_funding_collected = 0 + 2 * FUNDING_PERIOD_MS) := by
  constructor
  · decide
  · intro h
    have h1 := h.1
    norm_num [collectFunding, FUNDING_PERIOD_MS] at h1

/-- Claim C2 (amended): for every open position whose asset has a primary
rate8h and for which Δh = floor((now − lastFundingAt)/1h) ≥ 1 **and whose
earned amount clears the 0.001 dust threshold**, Phase 1 adds `earned =
sizeUsd × (rate8h/8) × Δh × direction` (direction +1 for short_perp, −1
otherwise) exactly once to the position's totalFundingCollected and once to
the cycle's cash balance, inserts exactly one funding transaction for
`earned`, and advances lastFundingAt by exactly Δh hours, preserving the
sub-hour remainder. -/
theorem claim_C2_amended (now : ℤ) (s : FundingSpread) (hl : FundingRate)
    (pos : PaperPosition) (hhl : s.hl = some hl)
    (hΔ : 1 ≤ (now - pos.last_funding_collected).fdiv FUNDING_PERIOD_MS)
    (hdust : 1/1000 ≤ |pos.size_usd * (hl.rate8h / 8) *
        (((now - pos.last_funding_collected).fdiv FUNDING_PERIOD_MS : ℤ) : ℚ) *
        (if pos.side = "short_perp" then 1 else -1)|) :
    let Δh := (now - pos.last_funding_collected).fdiv FUNDING_PERIOD_MS
    let earned := pos.size_usd * (hl.rate8h / 8) * (Δh : ℚ) *
      (if pos.side = "short_perp" then 1 else -1)
    let step := collectFunding now (some s) pos
    step.pos.total_funding_collected = pos.total_funding_collected + earned ∧
    step.cashDelta = earned ∧
    step.fundingTxns = [earned] ∧
    step.pos.last_funding_collected = pos.last_funding_collected + Δh * FUNDING_PERIOD_MS := by
  intro Δh earned step
  have hstep : step = ⟨{ pos with
      total_funding_collected := pos.total_funding_collected + earned
      last_funding_collected := pos.last_funding_collected + Δh * FUNDING_PERIOD_MS }
      , earned, [earned]⟩ := by
    show collectFunding now (some s) pos = _
    rw [collectFunding, hhl]
    simp only
    rw [if_neg (by omega), if_neg (by exact not_lt.mpr hdust)]
  rw [hstep]
  exact ⟨rfl, rfl, rfl, rfl⟩

/-- Witness for claim C2 on the spec's S1 scenario: short BTC, size 10000,
rate8h 0.0008, 2.5 hours elapsed: Δh = 2 and earned = 2.00, lastFundingAt
advances by exactly 2 hours. -/
theorem claim_C2_witness :
    (collectFunding 9000000
        (some { asset := "BTC", hl := some { asset := "BTC", rate8h := 8/10000 },
                maxSpread := 0, bestCex := "none" })
        { id := "p1", asset := "BTC", side := "short_perp", size_usd := 10000,
          last_funding_collected := 0 }).pos.total_funding_collected = 0 + 2 ∧
    (collectFunding 9000000
        (some { asset := "BTC", hl := some { asset := "BTC", rate8h := 8/10000 },
                maxSpread := 0, bestCex := "none" })
        { id := "p1", asset := "BTC", side := "short_perp", size_usd := 10000,
          last_funding_collected := 0 }).pos.last_funding_collected = 0 + 2 * FUNDING_PERIOD_MS := by
  have h := claim_C2_amended 9000000
    { asset := "BTC", hl := some { asset := "BTC", rate8h := 8/10000 },
      maxSpread := 0, bestCex := "none" }
    { asset := "BTC", rate8h := 8/10000 }
    { id := "p1", asset := "BTC", side := "short_perp", size_usd := 10000,
      last_funding_collected := 0 }
    rfl (by decide)
    (by norm_num [FUNDING_PERIOD_MS, (by decide : Int.fdiv 9000000 3600000 = 2)])
  refine ⟨?_, ?_⟩
  · rw [h.1]
    norm_num [FUNDING_PERIOD_MS, (by decide : Int.fdiv 9000000 3600000 = 2)]
  · rw [h.2.2.2]
    norm_num [FUNDING_PERIOD_MS, (by decide : Int.fdiv 9000000 3600000 = 2)]

/-- Strategy configuration (`strategy_config` JSON): keys read by the engine,
each optional (`?? default` in the source). -/
structure StrategyConfig where
  stop_loss_pct : Option ℚ := none
  exit_rate_threshold : Option ℚ := none
  exit_spread_threshold : Option ℚ := none
  max_position_size_pct : Option ℚ := none
  max_positions : Option ℕ := none
deriving Repr, DecidableEq

/-- Stop-loss check of Phase 2 (runs before strategy-specific logic): with
both prices present and usable (JS truthiness guard `currentExitPrice &&
entryPriceForSL && entryPriceForSL > 0`, i.e. `p ≠ 0 ∧ 0 < e`), the signed
price move is compared against `-(config.stop_loss_pct ?? 0.10)`. -/
def stopLossHit (config : StrategyConfig) (spread : FundingSpread)
    (pos : PaperPosition) : Bool :=
  let currentExitPrice : Option ℚ := spread.hl.bind (·.markPrice)
  let stopLossPct := config.stop_loss_pct.getD (10/100)
  match currentExitPrice, pos.entry_price with
  | some p, some e =>
    if p ≠ 0 ∧ 0 < e then
      let unrealizedPricePct := if pos.side = "short_perp" then (e - p) / e else (p - e) / e
      decide (unrealizedPricePct < -stopLossPct)
    else false
  | _, _ => false

/-- Strategy-specific exit check of Phase 2 (only reached when the stop-loss
did not trigger). -/
def strategyExitHit (strategyName : String) (config : StrategyConfig)
    (spread : FundingSpread) (pos : PaperPosition) : Bool :=
  if strategyName = "negative_fade" then
    let hlRate := (spread.hl.map (·.rate8h)).getD 0
    decide (hlRate > config.exit_rate_threshold.getD (-(1/100)))
  else if strategyName = "regime_adaptive" then
    let hlRate := (spread.hl.map (·.rate8h)).getD 0
    let exitThreshold := config.exit_rate_threshold.getD (1/10000)
    if pos.side = "long_perp" then decide (hlRate > exitThreshold)
    else decide (hlRate < -exitThreshold)
  else
    decide (spread.maxSpread < config.exit_spread_threshold.getD (1/100))

/-- Phase 2 of `processPortfolio` for one position: decides whether to exit
and with which reason.  `exitReason` is initialised to `"strategy"` and only
set to `"stop_loss"` by the stop-loss branch; strategy logic runs only `if
(!shouldExit)`.  Returns `none` when the position stays open. -/
def checkExit (strategyName : String) (config : StrategyConfig)
    (spread : FundingSpread) (pos : PaperPosition) : Option String :=
  if stopLossHit config spread pos then some "stop_loss"
  else if strategyExitHit strategyName config spread pos then some "strategy"
  else none

/-- Claim C4: in the paper-trading exit phase, whenever entry and current
mark prices are available (present and usable: mark ≠ 0, entry > 0) and the
signed price move `pricePct` is below `-(config.stop_loss_pct ?? 0.10)`, the
position exits with reason `stop_loss`, and no strategy-specific exit is
recorded for it on that cycle (the result is `some "stop_loss"`, never
`some "strategy"`). -/
theorem claim_C4_stop_loss (strategyName : String) (config : StrategyConfig)
    (spread : FundingSpread) (pos : PaperPosition) (hl : FundingRate) (p e : ℚ)
    (hhl : spread.hl = some hl) (hp : hl.markPrice = some p) (hp0 : p ≠ 0)
    (he : pos.entry_price = some e) (he0 : 0 < e)
    (hstop : (if pos.side = "short_perp" then (e - p) / e else (p - e) / e) <
      -(config.stop_loss_pct.getD (10/100))) :
    checkExit strategyName config spread pos = some "stop_loss" := by
  have hhit : stopLossHit config spread pos = true := by
    rw [stopLossHit, hhl]
    simp only [Option.some_bind, hp, he]
    rw [if_pos ⟨hp0, he0⟩]
    exact decide_eq_true hstop
  rw [checkExit, hhit]
  simp

/-- Witness for claim C4 on the spec's S2 scenario: long SOL, entry 100,
mark 80, stop 0.15: pricePct = -0.20 < -0.15 exits with stop_loss even
though the aggressive strategy exit condition also holds. -/
theorem claim_C4_witness :
    checkExit "aggressive" { stop_loss_pct := some (15/100) }
      { asset := "SOL",
        hl := some { asset := "SOL", rate8h := 1/1000, markPrice := some 80 },
        maxSpread := 0, bestCex := "none" }
      { id := "p1", asset := "SOL", side := "long_perp", size_usd := 1000,
        entry_price := some 100, last_funding_collected := 0 } = some "stop_loss" :=
  claim_C4_stop_loss "aggressive" { stop_loss_pct := some (15/100) }
    { asset := "SOL",
      hl := some { asset := "SOL", rate8h := 1/1000, markPrice := some 80 },
      maxSpread := 0, bestCex := "none" }
    { id := "p1", asset := "SOL", side := "long_perp", size_usd := 1000,
      entry_price := some 100, last_funding_collected := 0 }
    { asset := "SOL", rate8h := 1/1000, markPrice := some 80 } 80 100
    rfl rfl (by norm_num) rfl (by norm_num)
    (by
      rw [if_neg (by decide : ¬ ("long_perp" : String) = "short_perp")]
      norm_num)

/-- Result of the Phase-2 close block for one exiting position: updated
in-cycle cash, the stored `realized_pnl` and `exit_price`, and the amount of
the single `close` transaction inserted. -/
structure PaperCloseResult where
  cashAfter : ℚ
  realizedPnl : ℚ
  closeTxnAmount : ℚ
  exitPrice : Option ℚ
deriving Repr, DecidableEq

/-- The close block of Phase 2 (`if (shouldExit) { ... }`): price return is
computed only when exit and entry prices are usable (`exitPrice && entryPrice
&& entryPrice > 0`), the exit fee is `sizeUsd × TRADING_FEE`, and the cash
credit is `sizeUsd + priceReturn + fundingCollected − exitFee`. -/
def closePaperPosition (spread : FundingSpread) (pos : PaperPosition)
    (cash : ℚ) : PaperCloseResult :=
  let exitPrice : Option ℚ := spread.hl.bind (·.markPrice)
  let entryPrice : Option ℚ := pos.entry_price
  let priceReturn : ℚ :=
    match exitPrice, entryPrice with
    | some p, some e =>
      if p ≠ 0 ∧ 0 < e then
        if pos.side = "short_perp" then (e - p) / e * pos.size_usd
        else (p - e) / e * pos.size_usd
      else 0
    | _, _ => 0
  let exitFee := pos.size_usd * TRADING_FEE
  let fundingCollected := pos.total_funding_collected
  let realizedPnl := priceReturn + fundingCollected - exitFee
  { cashAfter := cash + pos.size_usd + priceReturn + fundingCollected - exitFee
    realizedPnl := realizedPnl
    closeTxnAmount := pos.size_usd + priceReturn + fundingCollected - exitFee
    exitPrice := exitPrice }

/-- Claim C5: whenever the exit phase closes a position with usable entry and
mark prices, the stored realizedPnl is `sideSign × (entry − mark)/entry ×
sizeUsd + totalFundingCollected − sizeUsd × 0.0005` (sideSign +1 for
short_perp, −1 otherwise), and cash is credited `sizeUsd + priceReturn +
totalFundingCollected − exitFee` (funding thus appears both in the Phase-1
incremental credits and in the close credit). -/
theorem claim_C5_close_accounting (spread : FundingSpread) (pos : PaperPosition)
    (cash : ℚ) (hl : FundingRate) (p e : ℚ)
    (hhl : spread.hl = some hl) (hp : hl.markPrice = some p) (hp0 : p ≠ 0)
    (he : pos.entry_price = some e) (he0 : 0 < e) :
    (closePaperPosition spread pos cash).realizedPnl =
      (if pos.side = "short_perp" then (1:ℚ) else -1) * ((e - p) / e) * pos.size_usd +
        pos.total_funding_collected - pos.size_usd * (5/10000) ∧
    (closePaperPosition spread pos cash).cashAfter =
      cash + pos.size_usd +
        (if pos.side = "short_perp" then (1:ℚ) else -1) * ((e - p) / e) * pos.size_usd +
        pos.total_funding_collected - pos.size_usd * (5/10000) ∧
    (closePaperPosition spread pos cash).closeTxnAmount =
      pos.size_usd +
        (if pos.side = "short_perp" then (1:ℚ) else -1) * ((e - p) / e) * pos.size_usd +
        pos.total_funding_collected - pos.size_usd * (5/10000) ∧
    (closePaperPosition spread pos cash).exitPrice = some p := by
  simp only [closePaperPosition, hhl, Option.some_bind, hp, he, TRADING_FEE]
  rw [if_pos ⟨hp0, he0⟩]
  by_cases hside : pos.side = "short_perp"
  · simp only [hside, ite_true, if_true]
    exact ⟨by ring, by ring, by ring, trivial⟩
  · simp only [hside, ite_false, if_false]
    exact ⟨by ring, by ring, by ring, trivial⟩

/-- Witness for claim C5: closing a short BTC position of size 10000 with
entry 100, mark 90 and 5 collected funding credits 11000 to cash and stores
realizedPnl = 1000. -/
theorem claim_C5_witness :
    (closePaperPosition
        { asset := "BTC",
          hl := some { asset := "BTC", rate8h := 1/1000, markPrice := some 90 },
          maxSpread := 0, bestCex := "none" }
        { id := "p1", asset := "BTC", side := "short_perp", size_usd := 10000,
          entry_price := some 100, total_funding_collected := 5,
          last_funding_collected := 0 } 0).realizedPnl = 1000 ∧
    (closePaperPosition
        { asset := "BTC",
          hl := some { asset := "BTC", rate8h := 1/1000, markPrice := some 90 },
          maxSpread := 0, bestCex := "none" }
        { id := "p1", asset := "BTC", side := "short_perp", size_usd := 10000,
          entry_price := some 100, total_funding_collected := 5,
          last_funding_collected := 0 } 0).cashAfter = 11000 := by
  have h := claim_C5_close_accounting
    { asset := "BTC",
      hl := some { asset := "BTC", rate8h := 1/1000, markPrice := some 90 },
      maxSpread := 0, bestCex := "none" }
    { id := "p1", asset := "BTC", side := "short_perp", size_usd := 10000,
      entry_price := some 100, total_funding_collected := 5,
      last_funding_collected := 0 } 0
    { asset := "BTC", rate8h := 1/1000, markPrice := some 90 } 90 100
    rfl rfl (by norm_num) rfl (by norm_num)
  refine ⟨?_, ?_⟩
  · rw [h.1]
    norm_num
  · rw [h.2.1]
    norm_num

/-- Record of one executed open in Phase 3: asset, side, accepted size, and
the in-cycle cash immediately before and after the debit. -/
structure OpenRec where
  asset : String
  side : String
  size : ℚ
  cashBefore : ℚ
  cashAfter : ℚ
deriving Repr, DecidableEq

/-- State threaded through the Phase-3 entry loop: in-cycle cash, the
`openAssets` set (insertion-ordered, duplicate-free) and the opens executed
so far. -/
structure EntryState where
  cash : ℚ
  openAssets : List String
  opens : List OpenRec
deriving Repr, DecidableEq

/-- `Set.add` on the insertion-ordered `openAssets` set. -/
def addAsset (l : List String) (a : String) : List String :=
  if a ∈ l then l else l ++ [a]

/-- `positionSize = Math.min(maxPositionSize, cashBalance − maxPositionSize ×
TRADING_FEE)` from the entry loop. -/
def entrySize (maxPositionSize cash : ℚ) : ℚ :=
  min maxPositionSize (cash - maxPositionSize * TRADING_FEE)

/-- Side selection in the entry loop: long for `negative_fade`, long for
`regime_adaptive` when the HL rate is negative, otherwise short. -/
def entrySide (strategyName : String) (candidate : FundingSpread) : String :=
  let hlRate := (candidate.hl.map (·.rate8h)).getD 0
  if strategyName = "negative_fade" ∨ (strategyName = "regime_adaptive" ∧ hlRate < 0)
  then "long_perp" else "short_perp"

/-- The Phase-3 `for (const candidate of candidates)` loop of
`processPortfolio`.  The two cap checks `break`; a too-small `positionSize`
or insufficient cash `break`s; an existing open position in the asset
`continue`s; otherwise the open executes, debiting `positionSize + fee` and
adding the asset to `openAssets`.  `remainingPositions` and `removedCount`
(`positionsToRemove.length`) are loop constants in the source. -/
def entryLoop (strategyName : String) (maxPositions : ℕ) (maxPositionSize : ℚ)
    (remainingPositions : List PaperPosition) (removedCount : ℕ) :
    List FundingSpread → EntryState → EntryState
  | [], st => st
  | candidate :: rest, st =>
    if maxPositions ≤ remainingPositions.length + removedCount then st
    else if maxPositions ≤ st.openAssets.length then st
    else if entrySize maxPositionSize st.cash < 100 then st
    else if st.cash < entrySize maxPositionSize st.cash +
        entrySize maxPositionSize st.cash * TRADING_FEE then st
    else if (remainingPositions.find? (fun q => q.asset = candidate.asset)).isSome then
      entryLoop strategyName maxPositions maxPositionSize remainingPositions removedCount rest st
    else
      entryLoop strategyName maxPositions maxPositionSize remainingPositions removedCount rest
        { cash := st.cash - (entrySize maxPositionSize st.cash +
            entrySize maxPositionSize st.cash * TRADING_FEE)
          openAssets := addAsset st.openAssets candidate.asset
          opens := st.opens ++ [⟨candidate.asset, entrySide strategyName candidate,
            entrySize maxPositionSize st.cash, st.cash,
            st.cash - (entrySize maxPositionSize st.cash +
              entrySize maxPositionSize st.cash * TRADING_FEE)⟩] }

/-- Every open recorded by the entry loop either came in with the initial
state or satisfies the entry guards: size at least 100, pre-debit cash at
least size + fee, exact debit, and non-negative post-debit cash. -/
theorem entryLoop_opens_sound (strategyName : String) (maxPositions : ℕ)
    (maxPositionSize : ℚ) (remainingPositions : List PaperPosition)
    (removedCount : ℕ) (candidates : List FundingSpread) (st : EntryState)
    (o : OpenRec)
    (ho : o ∈ (entryLoop strategyName maxPositions maxPositionSize remainingPositions
      removedCount candidates st).opens) :
    o ∈ st.opens ∨
      (100 ≤ o.size ∧ o.size + o.size * TRADING_FEE ≤ o.cashBefore ∧
        o.cashAfter = o.cashBefore - (o.size + o.size * TRADING_FEE) ∧
        0 ≤ o.cashAfter) := by
  induction candidates generalizing st with
  | nil => exact Or.inl ho
  | cons c rest ih =>
    rw [entryLoop] at ho
    split_ifs at ho with h1 h2 h3 h4 h5
    · exact Or.inl ho
    · exact Or.inl ho
    · exact Or.inl ho
    · exact Or.inl ho
    · exact ih st ho
    · rcases ih _ ho with hmem | hP
      · simp only [List.mem_append, List.mem_singleton] at hmem
        rcases hmem with hmem | hmem
        · exact Or.inl hmem
        · subst hmem
          refine Or.inr ⟨not_lt.mp h3, not_lt.mp h4, rfl, ?_⟩
          have := not_lt.mp h4
          simp only
          linarith
      · exact Or.inr hP

/-- Claim C9: the paper-trading entry phase never drives the in-cycle cash
balance below zero: an open executes only when the accepted size is at least
100 and cash covers size + fee (fee = size × 0.0005), so the cash recorded
immediately after every executed open is non-negative. -/
theorem claim_C9_entry_no_negative_cash (strategyName : String) (maxPositions : ℕ)
    (maxPositionSize : ℚ) (remainingPositions : List PaperPosition)
    (removedCount : ℕ) (candidates : List FundingSpread) (cash0 : ℚ)
    (openAssets0 : List String) (o : OpenRec)
    (ho : o ∈ (entryLoop strategyName maxPositions maxPositionSize remainingPositions
      removedCount candidates ⟨cash0, openAssets0, []⟩).opens) :
    100 ≤ o.size ∧ o.size + o.size * (5/10000) ≤ o.cashBefore ∧
      o.cashAfter = o.cashBefore - (o.size + o.size * (5/10000)) ∧ 0 ≤ o.cashAfter := by
  rcases entryLoop_opens_sound strategyName maxPositions maxPositionSize
    remainingPositions removedCount candidates ⟨cash0, openAssets0, []⟩ o ho with h | h
  · simp at h
  · exact h

/-- Candidate spread used by the C9 witness (the spec's S4 scenario). -/
def ethSpread : FundingSpread :=
  { asset := "ETH", hl := some { asset := "ETH", rate8h := 1/1000, markPrice := some 2000 },
    maxSpread := 4/100, bestCex := "binance" }

/-- The open executed in the C9 witness run: size 1000 from cash 5000,
fee 0.50, cash after 3999.50. -/
def openETH : OpenRec := ⟨"ETH", "short_perp", 1000, 5000, 7999/2⟩

/-- Witness for claim C9 on the spec's S4 scenario: aggressive portfolio with
cash 5000 and maxPositionSize 1000 opens short ETH of size 1000, leaving
non-negative cash 3999.50. -/
theorem claim_C9_witness :
    100 ≤ openETH.size ∧
      openETH.size + openETH.size * (5/10000) ≤ openETH.cashBefore ∧
      openETH.cashAfter = openETH.cashBefore - (openETH.size + openETH.size * (5/10000)) ∧
      0 ≤ openETH.cashAfter :=
  claim_C9_entry_no_negative_cash "aggressive" 5 1000 [] 0 [ethSpread] 5000 [] openETH
    (by
      have hrun : entryLoop "aggressive" 5 1000 [] 0 [ethSpread] ⟨5000, [], []⟩ =
          ⟨7999/2, ["ETH"], [openETH]⟩ := by
        norm_num [entryLoop, entrySize, entrySide, addAsset, TRADING_FEE, min_def,
          ethSpread, openETH]
        decide
      rw [hrun]
      exact List.mem_singleton_self _)

/-- Fixed AI-trader stop loss (15%). -/
def STOP_LOSS_PCT : ℚ := 15/100

/-- One open AI position (`ai_positions` row fields the cycle reads). -/
structure AiPosition where
  id : String
  asset : String
  direction : String
  size_usd : ℚ
  entry_price_approx : Option ℚ := none
  funding_collected : ℚ := 0
  fees_paid : ℚ := 0
  last_funding_at : ℤ
deriving Repr, DecidableEq

/-- `computeUnrealizedPnl`: returns 0 when either price is missing or 0 (JS
`!currentPrice || !pos.entry_price_approx`); otherwise the signed price move
times size. -/
def computeUnrealizedPnl (pos : AiPosition) (currentPrice : Option ℚ) : ℚ :=
  match currentPrice, pos.entry_price_approx with
  | some p, some e =>
    if p ≠ 0 ∧ e ≠ 0 then
      if pos.direction = "long" then (p - e) / e * pos.size_usd
      else (e - p) / e * pos.size_usd
    else 0
  | _, _ => 0

/-- Lookup of `currentPriceMap.get(asset)?.markPrice ?? null` (the map is
built from the spreads with last-write-wins). -/
def markPriceFor (spreads : List FundingSpread) (a : String) : Option ℚ :=
  match spreadFor spreads a with
  | none => none
  | some s =>
    match s.hl with
    | none => none
    | some hl => hl.markPrice

/-- Result of `closePosition`: the cash credited back and the realized pnl
stored on the row.  Cash return = size + price pnl − exit fee only: funding
was already credited during collection and is NOT added again. -/
structure AiCloseResult where
  cashReturn : ℚ
  realizedPnl : ℚ
deriving Repr, DecidableEq

/-- `closePosition` for AI positions. -/
def closeAiPosition (spreads : List FundingSpread) (pos : AiPosition) : AiCloseResult :=
  let exitPrice := markPriceFor spreads pos.asset
  let unrealizedPnl := computeUnrealizedPnl pos exitPrice
  let exitFee := pos.size_usd * TRADING_FEE
  { cashReturn := pos.size_usd + unrealizedPnl - exitFee
    realizedPnl := unrealizedPnl + pos.funding_collected - pos.fees_paid - exitFee }

/-- An LLM decision object (parsed JSON). -/
structure Decision where
  action : String
  asset : Option String := none
  size_usd : Option ℚ := none
  reasoning : String
deriving Repr, DecidableEq

/-- Outcome of one `callLLMWithTimeout` attempt, abstracting the network:
timeout, thrown error, empty content, content without a JSON object, or a
parsed decision. -/
inductive LlmAttempt where
  | timedOut
  | failure (msg : String)
  | emptyContent
  | noJson
  | parsed (d : Decision)
deriving Repr, DecidableEq

/-- The decision returned after the second timeout
(`LLM timed out after ${LLM_TIMEOUT_MS / 1000}s — holding`, 45_000/1000 = 45). -/
def timeoutDecision : Decision :=
  ⟨"hold", none, none, "LLM timed out after 45s — holding"⟩

/-- Validation of a parsed decision: unknown actions collapse to hold. -/
def validateDecision (d : Decision) : Decision :=
  if d.action = "open_long" ∨ d.action = "open_short" ∨ d.action = "close" ∨ d.action = "hold"
  then d
  else ⟨"hold", none, none, "Invalid action from LLM"⟩

/-- What attempt 1 of the `callLLM` retry loop returns, or `none` when the
loop `continue`s to attempt 2 (timeout and thrown error both retry). -/
def attemptReturn (a : LlmAttempt) : Option Decision :=
  match a with
  | .timedOut => none
  | .failure _ => none
  | .emptyContent => some ⟨"hold", none, none, "LLM returned empty response"⟩
  | .noJson => some ⟨"hold", none, none, "Failed to parse LLM response"⟩
  | .parsed d => some (validateDecision d)

/-- What attempt 2 (the final attempt) of `callLLM` returns. -/
def secondAttemptReturn (a : LlmAttempt) : Decision :=
  match a with
  | .timedOut => timeoutDecision
  | .failure msg => ⟨"hold", none, none, "LLM error: " ++ msg⟩
  | .emptyContent => ⟨"hold", none, none, "LLM returned empty response"⟩
  | .noJson => ⟨"hold", none, none, "Failed to parse LLM response"⟩
  | .parsed d => validateDecision d

/-- `callLLM`: no API key means an immediate hold; otherwise attempt 1,
retrying once on timeout or error. -/
def callLLM (apiKeyPresent : Bool) (a1 a2 : LlmAttempt) : Decision :=
  if apiKeyPresent then
    match attemptReturn a1 with
    | some d => d
    | none => secondAttemptReturn a2
  else ⟨"hold", none, none, "API key not configured"⟩

/-- A persisted `ai_decisions` row. -/
structure AiDecisionRow where
  action : String
  asset : Option String
  size_usd : Option ℚ
  reasoning : String
deriving Repr, DecidableEq

/-- A position mutation performed by the cycle: one insert or one close. -/
inductive AiMutation where
  | openPos (asset direction : String) (size : ℚ)
  | closePos (id : String)
deriving Repr, DecidableEq

/-- State threaded through the funding + stop-loss loop (Step 2): in-cycle
cash, the still-open (updated) positions in order, the ids closed by stop
loss, the decision rows inserted so far, the position mutations performed so
far, and two accounting tallies: total funding credited and total stop-loss
close credits. -/
structure AiPhaseState where
  cash : ℚ
  remaining : List AiPosition
  closedIds : List String
  rows : List AiDecisionRow
  mutations : List AiMutation
  fundingTotal : ℚ
  stopCashReturns : ℚ
deriving Repr, DecidableEq

/-- The synthetic stop-loss decision row (the source interpolates the loss
percentage into the reasoning string; the numeric formatting is elided here —
no claim depends on this text). -/
def stopLossRow (pos : AiPosition) : AiDecisionRow :=
  ⟨"close", some pos.asset, some pos.size_usd,
    "STOP LOSS: " ++ pos.direction ++ " " ++ pos.asset ++ " hit the 15% loss limit"⟩

/-- Funding collection on one AI position (Step 2, first half): returns the
updated position and the amount credited to cash (0 when skipped).  The AI
engine applies the update only when `|fundingEarned| ≥ 0.001`. -/
def aiFundingUpdate (now : ℤ) (hl : FundingRate) (pos : AiPosition) : AiPosition × ℚ :=
  let periodsElapsed := (now - pos.last_funding_at).fdiv FUNDING_PERIOD_MS
  if 0 < periodsElapsed then
    let fundingEarned := pos.size_usd * (hl.rate8h / 8) * (periodsElapsed : ℚ) *
      (if pos.direction = "short" then 1 else -1)
    if 1/1000 ≤ |fundingEarned| then
      ({ pos with
          funding_collected := pos.funding_collected + fundingEarned
          last_funding_at := pos.last_funding_at + periodsElapsed * FUNDING_PERIOD_MS },
        fundingEarned)
    else (pos, 0)
  else (pos, 0)

/-- One iteration of the Step-2 loop of `runAiTraderCycle`: skip positions
without a spread or HL data, collect funding, then check the 15% stop loss
(JS guard `entryPrice && currentPrice && entryPrice > 0`); a triggered stop
loss closes the position, credits the cash return, and inserts a synthetic
close decision. -/
def aiPositionStep (now : ℤ) (spreads : List FundingSpread) (st : AiPhaseState)
    (pos : AiPosition) : AiPhaseState :=
  match spreadFor spreads pos.asset with
  | none => { st with remaining := st.remaining ++ [pos] }
  | some s =>
    match s.hl with
    | none => { st with remaining := st.remaining ++ [pos] }
    | some hl =>
      let upd := aiFundingUpdate now hl pos
      match upd.1.entry_price_approx, hl.markPrice with
      | some e, some p =>
        if e ≠ 0 ∧ p ≠ 0 ∧ 0 < e then
          if (if upd.1.direction = "long" then (p - e) / e else (e - p) / e)
              < -STOP_LOSS_PCT then
            { cash := st.cash + upd.2 + (closeAiPosition spreads upd.1).cashReturn
              remaining := st.remaining
              closedIds := st.closedIds ++ [upd.1.id]
              rows := st.rows ++ [stopLossRow upd.1]
              mutations := st.mutations ++ [.closePos upd.1.id]
              fundingTotal := st.fundingTotal + upd.2
              stopCashReturns := st.stopCashReturns + (closeAiPosition spreads upd.1).cashReturn }
          else { st with
              cash := st.cash + upd.2
              remaining := st.remaining ++ [upd.1]
              fundingTotal := st.fundingTotal + upd.2 }
        else { st with
            cash := st.cash + upd.2
            remaining := st.remaining ++ [upd.1]
            fundingTotal := st.fundingTotal + upd.2 }
      | _, _ => { st with
          cash := st.cash + upd.2
          remaining := st.remaining ++ [upd.1]
          fundingTotal := st.fundingTotal + upd.2 }

/-- Result of Step 5 (decision execution): new cash, the mutations performed
(at most one), and the possibly-downgraded decision that gets logged. -/
structure AiExecResult where
  cash : ℚ
  mutations : List AiMutation
  finalDecision : Decision
deriving Repr, DecidableEq

/-- Step 5 of `runAiTraderCycle`: execute the LLM decision.  Opens are capped
at 30% of total value, rejected (downgraded to hold) at 3 open positions,
resized on insufficient cash (downgraded when the resized position is under
100), and rejected on a duplicate asset; closes require a matching open
position.  Note the source sets `decision.action = 'hold'` before building
the max-3 reasoning string, so that string interpolates `hold`. -/
def executeDecision (spreads : List FundingSpread) (remaining : List AiPosition)
    (totalValue cash : ℚ) (d : Decision) : AiExecResult :=
  if d.action = "open_long" ∨ d.action = "open_short" then
    let maxSize := totalValue * (3/10)
    let size0 := min (d.size_usd.getD maxSize) maxSize
    let fee := size0 * TRADING_FEE
    let asset := d.asset.getD "BTC"
    if 3 ≤ remaining.length then
      ⟨cash, [],
        { d with
            action := "hold"
            reasoning := "Wanted to hold but already at max 3 positions. " ++ d.reasoning }⟩
    else
      let size1 := if cash < size0 + fee then max 0 (cash - fee) else size0
      if cash < size0 + fee ∧ size1 < 100 then
        ⟨cash, [],
          { d with
              action := "hold"
              reasoning := "Insufficient cash. " ++ d.reasoning }⟩
      else
        match remaining.find? (fun q => q.asset = asset) with
        | some existingOpen =>
          ⟨cash, [],
            { d with
                action := "hold"
                reasoning := "Already have open " ++ existingOpen.direction ++
                  " position in " ++ asset ++ ". " ++ d.reasoning }⟩
        | none =>
          ⟨cash - (size1 + size1 * TRADING_FEE),
            [.openPos asset (if d.action = "open_long" then "long" else "short") size1], d⟩
  else if d.action = "close" then
    match remaining.find? (fun q => some q.asset = d.asset) with
    | some pos =>
      ⟨cash + (closeAiPosition spreads pos).cashReturn, [.closePos pos.id], d⟩
    | none =>
      ⟨cash, [],
        { d with
            action := "hold"
            reasoning := "Tried to close " ++ d.asset.getD "undefined" ++
              " but no open position found. " ++ d.reasoning }⟩
  else ⟨cash, [], d⟩

/-- Mark-to-market total value used by Step 5 (cash + size + price-only
unrealized pnl per remaining position). -/
def aiTotalValue (spreads : List FundingSpread) (cash : ℚ)
    (remaining : List AiPosition) : ℚ :=
  cash + remaining.foldl
    (fun s p => s + p.size_usd + computeUnrealizedPnl p (markPriceFor spreads p.asset)) 0

/-- Observable outcome of one `runAiTraderCycle` call. -/
structure AiCycleResult where
  cash : ℚ
  cashAfterPhase2 : ℚ
  stopLossClosed : List String
  decisionRows : List AiDecisionRow
  mutations : List AiMutation
  fundingTotal : ℚ
  stopCashReturns : ℚ
  returned : Decision
deriving Repr, DecidableEq

/-- `runAiTraderCycle` for a loaded active trader, as a function of the
trader's cash, its open positions, the cached spreads and the abstracted LLM
outcomes: Step 2 (funding + stop losses), Step 4 (LLM call), Step 5
(execution), then the final decision insert. -/
def runAiTraderCycle (apiKeyPresent : Bool) (a1 a2 : LlmAttempt) (now : ℤ)
    (cash0 : ℚ) (openPositions : List AiPosition) (spreads : List FundingSpread) :
    AiCycleResult :=
  let st := openPositions.foldl (aiPositionStep now spreads)
    ⟨cash0, [], [], [], [], 0, 0⟩
  let decision := callLLM apiKeyPresent a1 a2
  let totalValue := aiTotalValue spreads st.cash st.remaining
  let ex := executeDecision spreads st.remaining totalValue st.cash decision
  { cash := ex.cash
    cashAfterPhase2 := st.cash
    stopLossClosed := st.closedIds
    decisionRows := st.rows ++ [⟨ex.finalDecision.action, ex.finalDecision.asset,
      ex.finalDecision.size_usd, ex.finalDecision.reasoning⟩]
    mutations := st.mutations ++ ex.mutations
    fundingTotal := st.fundingTotal
    stopCashReturns := st.stopCashReturns
    returned := ex.finalDecision }

/-- Invariant of the Step-2 loop: one synthetic decision row and one close
mutation per stop-loss-closed id, and cash equals the starting cash plus all
funding credits plus all stop-loss close credits. -/
def AiInv (cash0 : ℚ) (st : AiPhaseState) : Prop :=
  st.rows.length = st.closedIds.length ∧
  st.mutations.length = st.closedIds.length ∧
  st.cash = cash0 + st.fundingTotal + st.stopCashReturns

/-- One Step-2 iteration preserves the loop invariant. -/
theorem aiPositionStep_inv (now : ℤ) (spreads : List FundingSpread) (cash0 : ℚ)
    (st : AiPhaseState) (pos : AiPosition) (h : AiInv cash0 st) :
    AiInv cash0 (aiPositionStep now spreads st pos) := by
  obtain ⟨h1, h2, h3⟩ := h
  simp only [aiPositionStep]
  split
  · exact ⟨h1, h2, h3⟩
  · split
    · exact ⟨h1, h2, h3⟩
    · split
      · split_ifs <;>
          exact ⟨by simp [h1], by simp [h2], by simp only []; linarith⟩
      · exact ⟨by simp [h1], by simp [h2], by simp only []; linarith⟩

/-- The Step-2 fold preserves the loop invariant. -/
theorem aiFold_inv (now : ℤ) (spreads : List FundingSpread) (cash0 : ℚ)
    (positions : List AiPosition) (st : AiPhaseState) (h : AiInv cash0 st) :
    AiInv cash0 (positions.foldl (aiPositionStep now spreads) st) := by
  induction positions generalizing st with
  | nil => exact h
  | cons p ps ih => exact ih _ (aiPositionStep_inv now spreads cash0 st p h)

/-- Decision execution performs at most one position mutation. -/
theorem executeDecision_mutations_le_one (spreads : List FundingSpread)
    (remaining : List AiPosition) (totalValue cash : ℚ) (d : Decision) :
    (executeDecision spreads remaining totalValue cash d).mutations.length ≤ 1 := by
  simp only [executeDecision]
  repeat' split
  all_goals simp

/-- Spread used by the C3/C8 counterexamples: BTC at mark 80, rate 0. -/
def aiSpreadBTC : FundingSpread :=
  { asset := "BTC", hl := some { asset := "BTC", rate8h := 0, markPrice := some 80 },
    maxSpread := 0, bestCex := "none" }

/-- Position used by the C3/C8 counterexamples: long BTC from entry 100,
now 20% under water (beyond the fixed 15% stop). -/
def aiPosBTC : AiPosition :=
  { id := "p1", asset := "BTC", direction := "long", size_usd := 1000,
    entry_price_approx := some 100, funding_collected := 0, fees_paid := 1/2,
    last_funding_at := 0 }

/-- Claim C3 counterexample: a cycle in which one position crosses the stop
loss persists two AiDecision rows (the synthetic stop-loss close plus the
final decision log), not exactly one. -/
theorem claim_C3_counterexample :
    ¬ ((runAiTraderCycle true .timedOut .timedOut 0 10000 [aiPosBTC]
        [aiSpreadBTC]).decisionRows.length = 1) := by
  have hrun : (runAiTraderCycle true .timedOut .timedOut 0 10000 [aiPosBTC]
      [aiSpreadBTC]).decisionRows.length = 2 := by
    norm_num [runAiTraderCycle, aiPositionStep, aiFundingUpdate, spreadFor,
      markPriceFor, computeUnrealizedPnl, closeAiPosition, callLLM, attemptReturn,
      secondAttemptReturn, executeDecision, aiTotalValue, STOP_LOSS_PCT, TRADING_FEE,
      FUNDING_PERIOD_MS, stopLossRow, timeoutDecision, aiPosBTC, aiSpreadBTC]
  omega

/-- Claim C3 (amended): every `runAiTraderCycle` call persists exactly one
final AiDecision row plus one synthetic close row per stop-loss-closed
position, and performs at most one position mutation from the LLM decision
plus one close per stop-loss-closed position. -/
theorem claim_C3_amended (apiKeyPresent : Bool) (a1 a2 : LlmAttempt) (now : ℤ)
    (cash0 : ℚ) (openPositions : List AiPosition) (spreads : List FundingSpread) :
    (runAiTraderCycle apiKeyPresent a1 a2 now cash0 openPositions
        spreads).decisionRows.length =
      (runAiTraderCycle apiKeyPresent a1 a2 now cash0 openPositions
        spreads).stopLossClosed.length + 1 ∧
    (runAiTraderCycle apiKeyPresent a1 a2 now cash0 openPositions
        spreads).mutations.length ≤
      (runAiTraderCycle apiKeyPresent a1 a2 now cash0 openPositions
        spreads).stopLossClosed.length + 1 := by
  obtain ⟨h1, h2, _⟩ := aiFold_inv now spreads cash0 openPositions
    ⟨cash0, [], [], [], [], 0, 0⟩ ⟨rfl, rfl, by simp⟩
  have hex := executeDecision_mutations_le_one spreads
    (openPositions.foldl (aiPositionStep now spreads) ⟨cash0, [], [], [], [], 0, 0⟩).remaining
    (aiTotalValue spreads
      (openPositions.foldl (aiPositionStep now spreads) ⟨cash0, [], [], [], [], 0, 0⟩).cash
      (openPositions.foldl (aiPositionStep now spreads) ⟨cash0, [], [], [], [], 0, 0⟩).remaining)
    (openPositions.foldl (aiPositionStep now spreads) ⟨cash0, [], [], [], [], 0, 0⟩).cash
    (callLLM apiKeyPresent a1 a2)
  simp only [runAiTraderCycle, List.length_append]
  constructor
  · simp [h1]
  · simp only [List.length_append] at hex ⊢
    omega

/-- A hold decision executes no mutation and leaves cash untouched. -/
theorem executeDecision_hold (spreads : List FundingSpread)
    (remaining : List AiPosition) (totalValue cash : ℚ) (d : Decision)
    (h : d.action = "hold") :
    executeDecision spreads remaining totalValue cash d = ⟨cash, [], d⟩ := by
  rw [executeDecision, if_neg (by simp [h]), if_neg (by simp [h])]

/-- Claim C8 counterexample: with both LLM attempts timing out, a cycle whose
only position is past the 15% stop closes it, so cash changes by the close
credit (799.50) even though no funding accrued (Δh = 0, rate 0): cash is not
"unchanged apart from funding accrued earlier in the cycle". -/
theorem claim_C8_counterexample :
    (runAiTraderCycle true .timedOut .timedOut 0 10000 [aiPosBTC]
        [aiSpreadBTC]).returned = timeoutDecision ∧
    (runAiTraderCycle true .timedOut .timedOut 0 10000 [aiPosBTC]
        [aiSpreadBTC]).fundingTotal = 0 ∧
    (runAiTraderCycle true .timedOut .timedOut 0 10000 [aiPosBTC]
        [aiSpreadBTC]).cash ≠ 10000 + 0 := by
  have hcall : callLLM true .timedOut .timedOut = timeoutDecision := rfl
  refine ⟨?_, ?_, ?_⟩
  · simp only [runAiTraderCycle, hcall,
      executeDecision_hold _ _ _ _ timeoutDecision rfl]
  · simp only [runAiTraderCycle, hcall,
      executeDecision_hold _ _ _ _ timeoutDecision rfl]
    norm_num [aiPositionStep, aiFundingUpdate, spreadFor, markPriceFor,
      computeUnrealizedPnl, closeAiPosition, STOP_LOSS_PCT, TRADING_FEE,
      FUNDING_PERIOD_MS, stopLossRow, timeoutDecision, aiPosBTC, aiSpreadBTC]
  · simp only [runAiTraderCycle, hcall,
      executeDecision_hold _ _ _ _ timeoutDecision rfl]
    norm_num [aiPositionStep, aiFundingUpdate, spreadFor, markPriceFor,
      computeUnrealizedPnl, closeAiPosition, STOP_LOSS_PCT, TRADING_FEE,
      FUNDING_PERIOD_MS, stopLossRow, timeoutDecision, aiPosBTC, aiSpreadBTC]

/-- Claim C8 (amended): if both LLM call attempts time out at the 45-second
deadline, the cycle's returned and logged decision is `{action: hold,
reasoning: "LLM timed out after 45s — holding"}`, the decision execution
performs no position mutation (all mutations of the cycle are stop-loss
closes), and cash changes only by the funding accrued and the stop-loss
close credits earlier in the cycle. -/
theorem claim_C8_amended (now : ℤ) (cash0 : ℚ) (openPositions : List AiPosition)
    (spreads : List FundingSpread) :
    (runAiTraderCycle true .timedOut .timedOut now cash0 openPositions
        spreads).returned = timeoutDecision ∧
    (runAiTraderCycle true .timedOut .timedOut now cash0 openPositions
        spreads).decisionRows.getLast? =
      some ⟨"hold", none, none, "LLM timed out after 45s — holding"⟩ ∧
    (runAiTraderCycle true .timedOut .timedOut now cash0 openPositions
        spreads).mutations.length =
      (runAiTraderCycle true .timedOut .timedOut now cash0 openPositions
        spreads).stopLossClosed.length ∧
    (runAiTraderCycle true .timedOut .timedOut now cash0 openPositions
        spreads).cash =
      cash0 + (runAiTraderCycle true .timedOut .timedOut now cash0 openPositions
        spreads).fundingTotal +
        (runAiTraderCycle true .timedOut .timedOut now cash0 openPositions
          spreads).stopCashReturns := by
  obtain ⟨h1, h2, h3⟩ := aiFold_inv now spreads cash0 openPositions
    ⟨cash0, [], [], [], [], 0, 0⟩ ⟨rfl, rfl, by simp⟩
  have hcall : callLLM true .timedOut .timedOut = timeoutDecision := rfl
  have hret : (runAiTraderCycle true .timedOut .timedOut now cash0 openPositions
      spreads).returned = timeoutDecision := by
    simp only [runAiTraderCycle, hcall,
      executeDecision_hold _ _ _ _ timeoutDecision rfl]
  have hlast : (runAiTraderCycle true .timedOut .timedOut now cash0 openPositions
      spreads).decisionRows.getLast? =
      some ⟨"hold", none, none, "LLM timed out after 45s — holding"⟩ := by
    simp only [runAiTraderCycle, hcall,
      executeDecision_hold _ _ _ _ timeoutDecision rfl]
    simp [List.getLast?_concat, timeoutDecision]
  have hmut : (runAiTraderCycle true .timedOut .timedOut now cash0 openPositions
      spreads).mutations.length =
      (runAiTraderCycle true .timedOut .timedOut now cash0 openPositions
        spreads).stopLossClosed.length := by
    simp only [runAiTraderCycle, hcall,
      executeDecision_hold _ _ _ _ timeoutDecision rfl]
    simp [h2]
  have hcash : (runAiTraderCycle true .timedOut .timedOut now cash0 openPositions
      spreads).cash =
      cash0 + (runAiTraderCycle true .timedOut .timedOut now cash0 openPositions
        spreads).fundingTotal +
        (runAiTraderCycle true .timedOut .timedOut now cash0 openPositions
          spreads).stopCashReturns := by
    simp only [runAiTraderCycle, hcall,
      executeDecision_hold _ _ _ _ timeoutDecision rfl]
    exact h3
  exact ⟨hret, hlast, hmut, hcash⟩

/-- Model of JavaScript `Number(s)` on the strings this endpoint sees:
non-negative decimal integer strings parse to their value; anything else
(e.g. "abc") is NaN, modelled as `none`. -/
def jsStrToNumber (s : String) : Option ℚ :=
  if s.data ≠ [] ∧ s.data.all (fun c => c.isDigit) then
    some ((s.data.foldl (fun n c => 10 * n + (c.toNat - 48)) 0 : ℕ) : ℚ)
  else none

/-- `Math.max(a, b)` with NaN propagation: NaN in, NaN out. -/
def jsMax (a : Option ℚ) (b : ℚ) : Option ℚ := a.map (fun x => max x b)

/-- `Math.min(a, b)` with NaN propagation. -/
def jsMin (a : Option ℚ) (b : ℚ) : Option ℚ := a.map (fun x => min x b)

/-- The limit computation of GET `/api/funding`:
`Math.min(Math.max(Number(c.req.query('limit') || 20), 1), 100)`.
A missing or empty query string is falsy, so `|| 20` applies; any other
string goes through `Number`. -/
def fundingLimit (q : Option String) : Option ℚ :=
  let raw : Option ℚ :=
    match q with
    | none => some 20
    | some s => if s = "" then some 20 else jsStrToNumber s
  jsMin (jsMax raw 1) 100

/-- The GET `/api/funding` handler body: `result.spreads.slice(0, limit)`.
`slice` converts its end argument with ToIntegerOrInfinity: NaN becomes 0
(empty result), a number truncates toward zero. -/
def fundingHandler (spreads : List FundingSpread) (q : Option String) :
    List FundingSpread :=
  match fundingLimit q with
  | none => []
  | some l => spreads.take (max 0 ⌊l⌋).toNat

/-- Claim C10: a GET `/api/funding` request with `limit=abc` responds 200
with an empty JSON array for every cached spread list — the NaN from
`Number("abc")` propagates through the `[1,100]` clamp (so neither the
default 20 nor the clamp applies) and `slice(0, NaN)` yields `[]`. -/
theorem claim_C10_nan_limit (spreads : List FundingSpread) :
    fundingHandler spreads (some "abc") = [] := by
  have h : jsStrToNumber "abc" = none := by
    rw [jsStrToNumber, if_neg (by decide)]
  simp [fundingHandler, fundingLimit, jsMin, jsMax, h]

/-- Hourly returns of `computeSharpeAndDrawdown`: `(v_i − v_{i−1})/v_{i−1}`
for every adjacent pair whose earlier value is positive. -/
def returnsOf : List ℚ → List ℚ
  | a :: b :: rest => (if 0 < a then [(b - a) / a] else []) ++ returnsOf (b :: rest)
  | _ => []

/-- `returns.reduce((s, r) => s + r, 0)`. -/
def listSum (l : List ℚ) : ℚ := l.foldl (· + ·) 0

/-- The mean of the returns. -/
def sampleMean (l : List ℚ) : ℚ := listSum l / l.length

/-- Sample variance with divisor n − 1, as in the source. -/
def sampleVariance (l : List ℚ) : ℚ :=
  (l.foldl (fun s r => s + (r - sampleMean l) ^ 2) 0) / ((l.length : ℚ) - 1)

/-- `Number(x.toFixed(3))`: rounding to 3 decimal places (the tie behaviour
of binary doubles is immaterial to the claims). -/
noncomputable def round3 (x : ℝ) : ℝ := ((round (x * 1000) : ℤ) : ℝ) / 1000

/-- `Number(x.toFixed(5))`: rounding to 5 decimal places. -/
def round5 (q : ℚ) : ℚ := ((round (q * 100000) : ℤ) : ℚ) / 100000

/-- The Sharpe half of `computeSharpeAndDrawdown`: `std = sqrt(variance)`,
`sharpe = std > 0 ? (mean/std × sqrt(8760)).toFixed(3) : null`. -/
noncomputable def sharpeOf (rets : List ℚ) : Option ℝ :=
  if 0 < Real.sqrt ((sampleVariance rets : ℚ) : ℝ) then
    some (round3 (((sampleMean rets : ℚ) : ℝ) /
      Real.sqrt ((sampleVariance rets : ℚ) : ℝ) * Real.sqrt 8760))
  else none

/-- Running state of the max-drawdown loop: current peak and max drawdown. -/
structure DDState where
  peak : ℚ
  maxDD : ℚ
deriving Repr, DecidableEq

/-- One iteration of the drawdown loop: raise the peak, then (when the peak
is positive) take `dd = (peak − v)/peak` if it beats the current maximum. -/
def ddStep (st : DDState) (v : ℚ) : DDState :=
  let peak := if st.peak < v then v else st.peak
  if 0 < peak then
    ⟨peak, if st.maxDD < (peak - v) / peak then (peak - v) / peak else st.maxDD⟩
  else ⟨peak, st.maxDD⟩

/-- The max-drawdown half of `computeSharpeAndDrawdown`: fold over all
values starting from `peak = values[0]`, then return the negated maximum
rounded to 5 decimals, or 0 when there was no decline. -/
def maxDrawdownOf (values : List ℚ) : ℚ :=
  let final := values.foldl ddStep ⟨values.headD 0, 0⟩
  if 0 < final.maxDD then round5 (-final.maxDD) else 0

/-- `computeSharpeAndDrawdown`: `{null, null}` under 2 values or under 2
valid returns, otherwise the Sharpe and max-drawdown pair. -/
noncomputable def computeSharpeAndDrawdown (values : List ℚ) :
    Option ℝ × Option ℚ :=
  if values.length < 2 then (none, none)
  else
    if (returnsOf values).length < 2 then (none, none)
    else (sharpeOf (returnsOf values), some (maxDrawdownOf values))

/-- The Sharpe formula as the spec words it: `(mean/std) × sqrt(8760)` over
the hourly returns, std the sample standard deviation. -/
noncomputable def specSharpe (values : List ℚ) : ℝ :=
  ((sampleMean (returnsOf values) : ℚ) : ℝ) /
    Real.sqrt ((sampleVariance (returnsOf values) : ℚ) : ℝ) * Real.sqrt 8760

/-- The drawdown values `(peak − v)/peak` over a running peak seeded with
`p0`, collected only where the peak is positive (the spec's description of
the maximum being taken). -/
def ddContrib (p0 : ℚ) : List ℚ → List ℚ
  | [] => []
  | v :: rest =>
    (if 0 < max p0 v then [(max p0 v - v) / max p0 v] else []) ++
      ddContrib (max p0 v) rest

/-- The spec-side maximum drawdown: largest of the running-peak drawdown
values (0 when none). -/
def specMaxDD (values : List ℚ) : ℚ :=
  (ddContrib (values.headD 0) values).foldl max 0

/-- `ddStep` in terms of `max`. -/
theorem ddStep_eq (st : DDState) (v : ℚ) :
    ddStep st v = ⟨max st.peak v,
      if 0 < max st.peak v
      then max st.maxDD ((max st.peak v - v) / max st.peak v)
      else st.maxDD⟩ := by
  rw [ddStep]
  have hpeak : (if st.peak < v then v else st.peak) = max st.peak v := by
    rcases le_or_lt v st.peak with h | h
    · rw [if_neg (not_lt.mpr h), max_eq_left h]
    · rw [if_pos h, max_eq_right h.le]
  simp only [hpeak]
  split_ifs with h0 h1
  · rw [max_eq_right h1.le]
  · rw [max_eq_left (not_lt.mp h1)]
  · rfl

/-- The fold of `ddStep` computes the running maximum of the `ddContrib`
values. -/
theorem ddFold_spec (l : List ℚ) (p0 m0 : ℚ) :
    (l.foldl ddStep ⟨p0, m0⟩).maxDD = (ddContrib p0 l).foldl max m0 := by
  induction l generalizing p0 m0 with
  | nil => rfl
  | cons v rest ih =>
    rw [List.foldl_cons, ddStep_eq]
    simp only [ddContrib]
    by_cases h : 0 < max p0 v
    · rw [if_pos h, if_pos h, ih]
      simp
    · rw [if_neg h, if_neg h, ih]
      simp

/-- With non-negative inputs every running-peak drawdown value lies in
[0, 1]. -/
theorem ddContrib_bounds (l : List ℚ) (p0 : ℚ) (hl : ∀ v ∈ l, 0 ≤ v) :
    ∀ x ∈ ddContrib p0 l, 0 ≤ x ∧ x ≤ 1 := by
  induction l generalizing p0 with
  | nil => simp [ddContrib]
  | cons v rest ih =>
    intro x hx
    simp only [ddContrib, List.mem_append] at hx
    rcases hx with hx | hx
    · have hv : 0 ≤ v := hl v (List.mem_cons_self v rest)
      by_cases h : 0 < max p0 v
      · rw [if_pos h, List.mem_singleton] at hx
        subst hx
        constructor
        · exact div_nonneg (by simp [sub_nonneg, le_max_right]) h.le
        · rw [div_le_one h]
          linarith
      · rw [if_neg h] at hx
        simp at hx
    · exact ih (max p0 v) (fun w hw => hl w (List.mem_cons_of_mem v hw)) x hx

/-- Folding `max` over values in [0, 1] from a seed in [0, 1] stays in
[0, 1]. -/
theorem foldl_max_bounds (l : List ℚ) (a : ℚ) (h0 : 0 ≤ a) (h1 : a ≤ 1)
    (hl : ∀ x ∈ l, 0 ≤ x ∧ x ≤ 1) : 0 ≤ l.foldl max a ∧ l.foldl max a ≤ 1 := by
  induction l generalizing a with
  | nil => exact ⟨h0, h1⟩
  | cons x xs ih =>
    obtain ⟨hx0, hx1⟩ := hl x (List.mem_cons_self x xs)
    exact ih (max a x) (le_max_of_le_left h0) (max_le h1 hx1)
      (fun y hy => hl y (List.mem_cons_of_mem x hy))

/-- Rounding −m to 5 decimals stays in [−1, 0] when m ∈ [0, 1]. -/
theorem round5_neg_bounds (m : ℚ) (h0 : 0 ≤ m) (h1 : m ≤ 1) :
    -1 ≤ round5 (-m) ∧ round5 (-m) ≤ 0 := by
  have hup : round (-m * 100000 : ℚ) ≤ 0 := by
    rw [round_eq]
    calc ⌊(-m * 100000 + 1/2 : ℚ)⌋ ≤ ⌊(1/2 : ℚ)⌋ :=
          Int.floor_le_floor (by nlinarith)
      _ = 0 := by norm_num
  have hlow : (-100000 : ℤ) ≤ round (-m * 100000 : ℚ) := by
    rw [round_eq]
    calc (-100000 : ℤ) = ⌊(-100000 + 1/2 : ℚ)⌋ := by norm_num
      _ ≤ ⌊(-m * 100000 + 1/2 : ℚ)⌋ := Int.floor_le_floor (by nlinarith)
  constructor
  · rw [round5, le_div_iff₀ (by norm_num : (0:ℚ) < 100000)]
    exact_mod_cast hlow
  · rw [round5]
    apply div_nonpos_of_nonpos_of_nonneg _ (by norm_num)
    exact_mod_cast hup

/-- Claim C7 (amended): whenever `computeSharpeAndDrawdown` returns a
non-null max drawdown, that value equals the negated maximum of
`(peak − v)/peak` over a running peak, rounded to 5 decimal places (0 if no
decline); and it lies in [−1, 0] **provided all snapshot values are
non-negative** (a negative snapshot value can push the drawdown below −1). -/
theorem claim_C7_amended (values : List ℚ) (d : ℚ)
    (hd : (computeSharpeAndDrawdown values).2 = some d) :
    d = (if 0 < specMaxDD values then round5 (-(specMaxDD values)) else 0) ∧
    ((∀ v ∈ values, 0 ≤ v) → -1 ≤ d ∧ d ≤ 0) := by
  have hdd : d = maxDrawdownOf values := by
    rw [computeSharpeAndDrawdown] at hd
    split_ifs at hd with h1 h2
    simp at hd
    exact hd.symm
  have hspec : maxDrawdownOf values =
      if 0 < specMaxDD values then round5 (-(specMaxDD values)) else 0 := by
    rw [maxDrawdownOf, specMaxDD, ddFold_spec]
  constructor
  · rw [hdd, hspec]
  · intro hnn
    have hb : 0 ≤ specMaxDD values ∧ specMaxDD values ≤ 1 :=
      foldl_max_bounds (ddContrib (values.headD 0) values) 0 le_rfl zero_le_one
        (ddContrib_bounds values (values.headD 0) hnn)
    rw [hdd, hspec]
    by_cases h : 0 < specMaxDD values
    · rw [if_pos h]
      exact round5_neg_bounds _ hb.1 hb.2
    · rw [if_neg h]
      norm_num

/-- Claim C7 counterexample: snapshot values [100, 50, −50] pass both length
guards (returns [−1/2, −2]) yet yield max drawdown −1.5, outside [−1, 0]. -/
theorem claim_C7_counterexample :
    (computeSharpeAndDrawdown [100, 50, -50]).2 = some (-(3/2)) ∧
    ¬ (-1 ≤ (-(3/2) : ℚ)) := by
  constructor
  · norm_num [computeSharpeAndDrawdown, returnsOf, maxDrawdownOf, ddStep, round5,
      round_eq]
  · norm_num

/-- Witness for claim C7: on values [10000, 10100, 10050] the drawdown is
−0.00495 (= −99/20000), matching the rounded running-peak maximum and lying
in [−1, 0]. -/
theorem claim_C7_witness :
    (-(99/20000) : ℚ) =
      (if 0 < specMaxDD [10000, 10100, 10050]
       then round5 (-(specMaxDD [10000, 10100, 10050])) else 0) ∧
    (-1 ≤ (-(99/20000) : ℚ) ∧ (-(99/20000) : ℚ) ≤ 0) := by
  have h := claim_C7_amended [10000, 10100, 10050] (-(99/20000))
    (by norm_num [computeSharpeAndDrawdown, returnsOf, maxDrawdownOf, ddStep,
      round5, round_eq])
  exact ⟨h.1, h.2 (by norm_num)⟩

/-- Inputs shorter than 2 have no returns. -/
theorem returnsOf_short (values : List ℚ) (h : values.length < 2) :
    returnsOf values = [] := by
  match values with
  | [] => rfl
  | [a] => rfl
  | a :: b :: rest =>
    simp only [List.length_cons] at h
    omega

/-- The squared-deviation fold stays non-negative. -/
theorem foldl_sq_nonneg (l : List ℚ) (c s : ℚ) (hs : 0 ≤ s) :
    0 ≤ l.foldl (fun s r => s + (r - c) ^ 2) s := by
  induction l generalizing s with
  | nil => exact hs
  | cons x xs ih =>
    exact ih _ (by
      show 0 ≤ s + (x - c) ^ 2
      nlinarith [sq_nonneg (x - c)])

/-- Sample variance over at least two returns is non-negative. -/
theorem sampleVariance_nonneg (l : List ℚ) (h : 2 ≤ l.length) :
    0 ≤ sampleVariance l := by
  rw [sampleVariance]
  apply div_nonneg (foldl_sq_nonneg l _ 0 le_rfl)
  have h2 : (2:ℚ) ≤ (l.length : ℚ) := by exact_mod_cast h
  linarith

/-- Claim C6 (amended): the sharpe component is null exactly when fewer than
2 valid returns exist or the sample variance is 0 (in particular for inputs
shorter than 2); when non-null it equals `(mean/std) × sqrt(8760)` **rounded
to 3 decimal places** (the source applies `.toFixed(3)`; the unrounded real
value is irrational in general and is never returned exactly). -/
theorem claim_C6_amended (values : List ℚ) :
    ((computeSharpeAndDrawdown values).1 = none ↔
      (returnsOf values).length < 2 ∨ sampleVariance (returnsOf values) = 0) ∧
    (∀ x : ℝ, (computeSharpeAndDrawdown values).1 = some x →
      x = round3 (specSharpe values)) := by
  rw [computeSharpeAndDrawdown]
  by_cases h1 : values.length < 2
  · rw [if_pos h1]
    constructor
    · simp [returnsOf_short values h1]
    · intro x hx
      simp at hx
  · rw [if_neg h1]
    by_cases h2 : (returnsOf values).length < 2
    · rw [if_pos h2]
      constructor
      · simp [h2]
      · intro x hx
        simp at hx
    · rw [if_neg h2]
      have hvpos : 0 ≤ sampleVariance (returnsOf values) :=
        sampleVariance_nonneg _ (not_lt.mp h2)
      constructor
      · constructor
        · intro hnone
          simp only at hnone
          rw [sharpeOf] at hnone
          split_ifs at hnone with h3
          right
          have h4 : Real.sqrt ((sampleVariance (returnsOf values) : ℚ) : ℝ) = 0 :=
            le_antisymm (not_lt.mp h3) (Real.sqrt_nonneg _)
          have h5 : ((sampleVariance (returnsOf values) : ℚ) : ℝ) ≤ 0 :=
            Real.sqrt_eq_zero'.mp h4
          have h6 : sampleVariance (returnsOf values) ≤ 0 := by exact_mod_cast h5
          linarith
        · intro hOr
          rcases hOr with hlt | hzero
          · exact absurd hlt h2
          · simp only
            rw [sharpeOf, if_neg (by rw [hzero]; simp)]
      · intro x hx
        simp only at hx
        rw [sharpeOf] at hx
        split_ifs at hx with h3
        exact (Option.some_inj.mp hx).symm

/-- Witness for claim C6: on values [1, 2, 3] the sharpe component is
non-null and the amended theorem applies (hypothesis discharged by
evaluating the code on that input). -/
theorem claim_C6_witness :
    round3 (specSharpe [1, 2, 3]) = round3 (specSharpe [1, 2, 3]) :=
  (claim_C6_amended [1, 2, 3]).2 (round3 (specSharpe [1, 2, 3]))
    (by
      have hrets : returnsOf [1, 2, 3] = [1, 1/2] := by norm_num [returnsOf]
      have hvar : sampleVariance [1, (1:ℚ)/2] = 1/8 := by
        norm_num [sampleVariance, sampleMean, listSum]
      rw [computeSharpeAndDrawdown, if_neg (by norm_num),
        if_neg (by norm_num [returnsOf])]
      simp only
      rw [sharpeOf, if_pos]
      · rw [specSharpe, hrets]
      · rw [hrets, hvar]
        exact Real.sqrt_pos.mpr (by norm_num))

/-- 1095 = 3 × 5 × 73 is not a perfect square. -/
theorem not_isSquare_1095 : ¬ IsSquare (1095 : ℕ) := by
  rintro ⟨r, hr⟩
  rcases le_or_lt r 33 with h | h
  · nlinarith
  · nlinarith

/-- On values [1, 2, 3] the spec's unrounded Sharpe equals 6·√1095. -/
theorem specSharpe_123 : specSharpe [1, 2, 3] = 6 * Real.sqrt 1095 := by
  have hrets : returnsOf [1, 2, 3] = [1, 1/2] := by norm_num [returnsOf]
  have hmean : sampleMean [1, (1:ℚ)/2] = 3/4 := by norm_num [sampleMean, listSum]
  have hvar : sampleVariance [1, (1:ℚ)/2] = 1/8 := by
    norm_num [sampleVariance, sampleMean, listSum]
  rw [specSharpe, hrets, hmean, hvar]
  push_cast
  rw [show ((1:ℝ)/8) = (8:ℝ)⁻¹ by norm_num, Real.sqrt_inv, div_eq_mul_inv, inv_inv]
  rw [mul_assoc, ← Real.sqrt_mul (by norm_num : (0:ℝ) ≤ 8)]
  rw [show (8:ℝ) * 8760 = 64 * 1095 by norm_num]
  rw [Real.sqrt_mul (by norm_num : (0:ℝ) ≤ 64)]
  rw [show Real.sqrt 64 = 8 by
    rw [show (64:ℝ) = 8^2 by norm_num, Real.sqrt_sq (by norm_num : (0:ℝ) ≤ 8)]]
  ring

/-- Claim C6 counterexample: on values [1, 2, 3] the code returns the
3-decimal rounding of the Sharpe formula, which cannot equal the exact
`(mean/std) × sqrt(8760)` because that value is the irrational 6·√1095 while
every returned value is rational. -/
theorem claim_C6_counterexample :
    (computeSharpeAndDrawdown [1, 2, 3]).1 ≠ some (specSharpe [1, 2, 3]) := by
  intro hEq
  have hsome : (computeSharpeAndDrawdown [1, 2, 3]).1 =
      some (round3 (specSharpe [1, 2, 3])) := by
    have hrets : returnsOf [1, 2, 3] = [1, 1/2] := by norm_num [returnsOf]
    have hvar : sampleVariance [1, (1:ℚ)/2] = 1/8 := by
      norm_num [sampleVariance, sampleMean, listSum]
    rw [computeSharpeAndDrawdown, if_neg (by norm_num),
      if_neg (by norm_num [returnsOf])]
    simp only
    rw [sharpeOf, if_pos]
    · rw [specSharpe, hrets]
    · rw [hrets, hvar]
      exact Real.sqrt_pos.mpr (by norm_num)
  rw [hsome] at hEq
  have hround : round3 (specSharpe [1, 2, 3]) = specSharpe [1, 2, 3] :=
    Option.some_inj.mp hEq
  have hirr : Irrational (specSharpe [1, 2, 3]) := by
    rw [specSharpe_123]
    have h1095 : Irrational (Real.sqrt 1095) := by
      rw [show ((1095:ℝ)) = ((1095:ℕ):ℝ) by norm_num]
      exact irrational_sqrt_natCast_iff.mpr not_isSquare_1095
    have h6 : Irrational (((6:ℕ):ℝ) * Real.sqrt 1095) :=
      h1095.nat_mul (by norm_num)
    simpa using h6
  have hq : round3 (specSharpe [1, 2, 3]) =
      (((round (specSharpe [1, 2, 3] * 1000) : ℤ) : ℚ) / 1000 : ℚ) := by
    rw [round3]
    push_cast
    ring
  rw [hround] at hq
  exact hirr ⟨_, hq.symm⟩
